import Mathlib

/-!
Shallow embedding of the admin-mcp orchestration core (NestJS/TypeScript) in Lean 4.

The embedding models the pure data-flow of the services the claims are about:

* `ExecutorService` (src/unnamed/part_001): JSONPath parameter interpolation,
  sequential plan execution with early termination, auth-header merging.
* `CacheService` (src/unnamed/part_001, second file): the response cache,
  per-user session lists and `findRelevantContext`.
* `PlannerService` (src/mcp-server/src/planner/planner.service.ts): metadata
  cache, plan validation with fallback, intent resolution and its similarity
  scores.
* `ChatService` (src/mcp-server/src/chat/chat.service.ts): the self-healing
  retry loop and the metadata-delta application.
* `AuthService` (src/mcp-server/src/auth/auth.service.ts): header creation.

Modelling conventions:
* JavaScript numbers are modelled as `ℚ` (exact arithmetic); `Math.sqrt` is
  modelled as `Rat.sqrt` (which, like the ideal square root, is `0` exactly on
  `0` and positive on positive input).
* JSON values are the inductive `Json` below; JS objects are association lists.
* String algorithms (`toLowerCase`, `includes`, `split(/\s+/)`, `trim`,
  `startsWith`) are re-implemented over `List Char` so that every definition
  kernel-reduces on concrete inputs (the core library versions do not).
* Wall-clock times (`Date.now()` durations) are modelled as `0`; logging is
  dropped; `async`/`await` sequencing is modelled by explicit state passing and
  by oracle functions for the LLM and HTTP collaborators.
* `Array.prototype.sort(cmp)` is modelled with `List.insertionSort` over the
  ordering the comparator induces (the claims depend on sortedness and
  membership, never on the order of ties).
-/

attribute [local semireducible] Rat.add Rat.mul Rat.inv Rat.sub

/-- JS `Math.max` on two numbers (the arguments in play are never `NaN`). -/
def jsMax (a b : ℚ) : ℚ := if a ≤ b then b else a

/-- JS `Math.max` on two array lengths. -/
def natMax (a b : ℕ) : ℕ := if a ≤ b then b else a

/-- JSON values, the model of the JavaScript values flowing through the core. -/
inductive Json where
  | null : Json
  | bool : Bool → Json
  | num : ℚ → Json
  | str : String → Json
  | arr : List Json → Json
  | obj : List (String × Json) → Json

/-- Lower-case a character (ASCII, as the queries and patterns in play are). -/
def lowerChar (c : Char) : Char := c.toLower

/-- Model of JS `String.prototype.toLowerCase` (ASCII range). -/
def lowerS (s : String) : String := String.mk (s.data.map lowerChar)

/-- Model of JS `String.prototype.toUpperCase` (ASCII range). -/
def upperS (s : String) : String := String.mk (s.data.map Char.toUpper)

/-- Model of JS `String.prototype.trim`. -/
def trimS (s : String) : String :=
  String.mk (((s.data.dropWhile Char.isWhitespace).reverse.dropWhile Char.isWhitespace).reverse)

/-- Does `pat` occur as a contiguous sublist of `hay`?  Model of JS
`String.prototype.includes` on the underlying characters. -/
def listContainsSub (pat : List Char) : List Char → Bool
  | [] => pat.isEmpty
  | c :: rest => pat.isPrefixOf (c :: rest) || listContainsSub pat rest

/-- Model of JS `a.includes(b)`. -/
def containsS (hay pat : String) : Bool := listContainsSub pat.data hay.data

/-- Model of JS `String.prototype.startsWith`. -/
def startsWithS (s pre : String) : Bool := pre.data.isPrefixOf s.data

/-- Worker for `splitWs`: `skipping` is true while inside a whitespace run whose
chunk has already been emitted.  Follows JS `str.split(/\s+/)` (leading
whitespace yields a leading empty chunk, trailing whitespace a trailing one). -/
def splitWsAux : List Char → List Char → Bool → List (List Char)
  | [], acc, false => [acc.reverse]
  | [], _, true => [[]]
  | c :: rest, acc, skipping =>
    if c.isWhitespace then
      if skipping then splitWsAux rest acc true
      else acc.reverse :: splitWsAux rest [] true
    else splitWsAux rest (c :: acc) false

/-- Model of JS `str.split(/\s+/)`. -/
def splitWs (s : String) : List String := (splitWsAux s.data [] false).map String.mk

/-! ## JSONPath (the subset the executor uses)

`ExecutorService.resolveJSONPath` queries the step context with the `jsonpath`
npm library.  The plans in play use root-based paths built from `.name`
member access, `[i]` index access and `[*]` wildcards; the parser below covers
exactly that subset. -/

/-- One segment of a parsed JSONPath. -/
inductive PathSeg where
  | key : String → PathSeg
  | idx : ℕ → PathSeg
  | star : PathSeg
deriving DecidableEq, Repr

/-- Parser state for `parseSegsAux`. -/
inductive PMode where
  | top : PMode
  | key : List Char → PMode
  | idxStart : PMode
  | idxDigits : ℕ → PMode
  | idxStarClose : PMode
deriving DecidableEq, Repr

/-- Close the currently accumulated `.name` segment, failing on an empty name. -/
def closeKey (acc : List Char) (rest : Option (List PathSeg)) : Option (List PathSeg) :=
  if acc.isEmpty then none
  else rest.map (PathSeg.key (String.mk acc.reverse) :: ·)

/-- Segment parser: a state machine over the characters after the leading `$`. -/
def parseSegsAux : List Char → PMode → Option (List PathSeg)
  | [], .top => some []
  | [], .key acc => closeKey acc (some [])
  | [], .idxStart => none
  | [], .idxDigits _ => none
  | [], .idxStarClose => none
  | c :: rest, .top =>
    if c = '.' then parseSegsAux rest (.key [])
    else if c = '[' then parseSegsAux rest .idxStart
    else none
  | c :: rest, .key acc =>
    if c = '.' then closeKey acc (parseSegsAux rest (.key []))
    else if c = '[' then closeKey acc (parseSegsAux rest .idxStart)
    else parseSegsAux rest (.key (c :: acc))
  | c :: rest, .idxStart =>
    if c = '*' then parseSegsAux rest .idxStarClose
    else if c.isDigit then parseSegsAux rest (.idxDigits (c.toNat - 48))
    else none
  | c :: rest, .idxDigits n =>
    if c = ']' then (parseSegsAux rest .top).map (PathSeg.idx n :: ·)
    else if c.isDigit then parseSegsAux rest (.idxDigits (n * 10 + (c.toNat - 48)))
    else none
  | c :: rest, .idxStarClose =>
    if c = ']' then (parseSegsAux rest .top).map (PathSeg.star :: ·)
    else none

/-- Parse a JSONPath string of the form `$.a[0].b`, `$.a[*].b`, …. -/
def parseJSONPath (s : String) : Option (List PathSeg) :=
  match s.data with
  | '$' :: rest => parseSegsAux rest .top
  | _ => none

/-- Evaluate a parsed path against a JSON value, returning the list of all
matches (the `jsonpath` library's `JSONPath.query`). -/
def queryJson : List PathSeg → Json → List Json
  | [], j => [j]
  | .key k :: rest, .obj fields =>
    match fields.lookup k with
    | some v => queryJson rest v
    | none => []
  | .key _ :: _, _ => []
  | .idx n :: rest, .arr xs =>
    match xs.get? n with
    | some v => queryJson rest v
    | none => []
  | .idx _ :: _, _ => []
  | .star :: rest, .arr xs => xs.flatMap (queryJson rest)
  | .star :: _, _ => []

/-! ## Executor: step results and parameter interpolation -/

/-- `StepResult` of `ExecutorService` (durations modelled as `0`). -/
structure StepResult where
  stepIndex : ℕ
  endpoint : String
  success : Bool
  statusCode : Option ℕ := none
  response : Option Json := none
  error : Option String := none
  executionTime : ℕ := 0
  satisfiesUserRequest : Option Bool := none

/-- The in-memory data context `{ steps: [{response, statusCode}…] }` that
`resolveJSONPath` builds from the previous step results. -/
def dataContext (previousResults : List StepResult) : Json :=
  .obj [("steps", .arr (previousResults.map (fun r =>
    .obj [("response", r.response.getD .null),
          ("statusCode", (r.statusCode.map (fun n => Json.num n)).getD .null)])))]

/-- `ExecutorService.resolveJSONPath`: query the data context; zero matches is
an error, one match is the value itself, several matches collapse to an array.
An unparsable path is also an error (the library throws, and the caller's
`catch` treats both the same way). -/
def resolveJSONPath (jsonPath : String) (previousResults : List StepResult) :
    Except String Json :=
  match parseJSONPath jsonPath with
  | none => .error "invalid JSONPath"
  | some segs =>
    match queryJson segs (dataContext previousResults) with
    | [] => .error ("JSONPath " ++ jsonPath ++ " returned no results")
    | [r] => .ok r
    | rs => .ok (.arr rs)

/-- The per-value body of `ExecutorService.interpolateParameters`: a string
value starting with `$.` is resolved via JSONPath; on a resolution error the
original value is kept (`catch` branch); anything else passes through. -/
def interpolateValue (value : Json) (previousResults : List StepResult) : Json :=
  match value with
  | .str s =>
    if startsWithS s "$." then
      match resolveJSONPath s previousResults with
      | .ok resolved => resolved
      | .error _ => .str s
    else .str s
  | v => v

/-- `ExecutorService.interpolateParameters`. -/
def interpolateParameters (params : List (String × Json))
    (previousResults : List StepResult) : List (String × Json) :=
  params.map (fun kv => (kv.1, interpolateValue kv.2 previousResults))

/-! ## Planner: metadata model and similarity scores -/

/-- One parameter of an endpoint in the denormalized `ApiMetadata`
(`in` is a reserved word in Lean, hence `in_`). -/
structure ParamMeta where
  name : String
  in_ : String
  type : String
  required : Bool
  description : String := ""
deriving DecidableEq, Repr

/-- One endpoint of the denormalized `ApiMetadata` of `PlannerService`. -/
structure EndpointMeta where
  id : ℕ
  path : String
  method : String
  summary : String
  promptText : Option String := none
  keywords : List String := []
  intentPatterns : List String := []
  embeddingVector : List ℚ := []
  parameters : List ParamMeta := []
deriving DecidableEq, Repr

/-- `ApiMetadata` (the `fieldLinks` part is not needed by any claim and is
omitted). -/
structure ApiMetadata where
  endpoints : List EndpointMeta
deriving DecidableEq, Repr

/-- `PlannerService.calculateCosineSimilarity`.  `Math.sqrt` is modelled by
`Rat.sqrt`. -/
def calculateCosineSimilarity (vector1 vector2 : List ℚ) : ℚ :=
  if vector1.length ≠ vector2.length then 0
  else
    let dotProduct := (vector1.zip vector2).foldl (fun s p => s + p.1 * p.2) 0
    let norm1 := vector1.foldl (fun s x => s + x * x) 0
    let norm2 := vector2.foldl (fun s x => s + x * x) 0
    let magnitude := Rat.sqrt norm1 * Rat.sqrt norm2
    if magnitude = 0 then 0 else dotProduct / magnitude

/-- `PlannerService.calculateKeywordSimilarity`. -/
def calculateKeywordSimilarity (query : String) (keywords : List String) : ℚ :=
  let queryWords := splitWs (lowerS query)
  let keywordMatches := keywords.filter (fun keyword =>
    queryWords.any (fun word =>
      containsS word (lowerS keyword) || containsS (lowerS keyword) word))
  if keywords.length > 0 then (keywordMatches.length : ℚ) / (keywords.length : ℚ) else 0

/-- `PlannerService.calculateIntentSimilarity`: fold over the patterns,
keeping the best of the substring signal (0.9) and the word-overlap signal
(0.7 × overlap ratio). -/
def calculateIntentSimilarity (query : String) (intentPatterns : List String) : ℚ :=
  intentPatterns.foldl (fun bestScore pattern =>
    let queryLower := lowerS query
    let patternLower := lowerS pattern
    let afterSub :=
      if containsS queryLower patternLower || containsS patternLower queryLower then
        jsMax bestScore (9 / 10)
      else bestScore
    let queryWords := splitWs queryLower
    let patternWords := splitWs patternLower
    let commonWords := queryWords.filter (fun word => patternWords.contains word)
    if commonWords.length > 0 then
      jsMax afterSub ((commonWords.length : ℚ) /
        (natMax queryWords.length patternWords.length) * (7 / 10))
    else afterSub) 0

/-- The score `PlannerService.resolveIntent` assigns to one endpoint: 40%
semantic (only when a query embedding exists and the endpoint has a stored
embedding), 30% keyword, 30% intent pattern, plus a 0.1 boost for a prompt
text longer than 20 characters. -/
def endpointScore (queryEmbedding : Option (List ℚ)) (userQuery : String)
    (endpoint : EndpointMeta) : ℚ :=
  let semanticPart :=
    match queryEmbedding with
    | some qe =>
      if endpoint.embeddingVector.length > 0 then
        calculateCosineSimilarity qe endpoint.embeddingVector * (4 / 10)
      else 0
    | none => 0
  let keywordPart :=
    if endpoint.keywords.length > 0 then
      calculateKeywordSimilarity userQuery endpoint.keywords * (3 / 10)
    else 0
  let intentPart :=
    if endpoint.intentPatterns.length > 0 then
      calculateIntentSimilarity userQuery endpoint.intentPatterns * (3 / 10)
    else 0
  let boost :=
    match endpoint.promptText with
    | some t => if t.data.length > 20 then (1 : ℚ) / 10 else 0
    | none => 0
  semanticPart + keywordPart + intentPart + boost

/-- The descending-score order induced by the comparator
`(a, b) => b.matchScore - a.matchScore`. -/
def scoreGe (a b : EndpointMeta × ℚ) : Prop := b.2 ≤ a.2

instance : DecidableRel scoreGe := fun a b => inferInstanceAs (Decidable (b.2 ≤ a.2))

instance : IsTotal (EndpointMeta × ℚ) scoreGe := ⟨fun a b => le_total b.2 a.2⟩

instance : IsTrans (EndpointMeta × ℚ) scoreGe := ⟨fun _ _ _ h1 h2 => le_trans h2 h1⟩

/-- `PlannerService.resolveIntent` (the query embedding, produced by the LLM
gateway, is passed in as an oracle; `none` models an embedding failure): score
every endpoint, keep those scoring strictly above 0.2 sorted by descending
score, and fall open to the whole catalog when none does. -/
def resolveIntent (queryEmbedding : Option (List ℚ)) (userQuery : String)
    (endpoints : List EndpointMeta) : List EndpointMeta :=
  let scoredEndpoints := endpoints.map (fun ep => (ep, endpointScore queryEmbedding userQuery ep))
  let sortedEndpoints :=
    (scoredEndpoints.filter (fun p => (1 : ℚ) / 5 < p.2)).insertionSort scoreGe
  if sortedEndpoints.isEmpty then endpoints else sortedEndpoints.map Prod.fst

/-! ## Planner: plan validation -/

/-- A step of an `ExecutionPlan`; `params` is the raw JSON object the LLM
produced. -/
structure PlanStep where
  endpoint : String
  params : Json

/-- `ExecutionPlan`. -/
structure ExecutionPlan where
  steps : List PlanStep

/-- The key `"METHOD PATH"` under which `validatePlan` indexes an endpoint. -/
def endpointKey (ep : EndpointMeta) : String := ep.method ++ " " ++ ep.path

/-- The `endpointMap` of `validatePlan`: a JS `Map` built from the endpoint
list, so a later binding wins (hence the lookup on the reversed list). -/
def findEndpoint (metadata : ApiMetadata) (key : String) : Option EndpointMeta :=
  ((metadata.endpoints.map (fun ep => (endpointKey ep, ep))).reverse).lookup key

/-- JS `name in params` for a JSON value: object key presence, or array index
presence for a numeric name. -/
def hasKeyJson (params : Json) (name : String) : Bool :=
  match params with
  | .obj fields => fields.any (fun f => f.1 = name)
  | .arr xs =>
    (if name.data ≠ [] ∧ name.data.all Char.isDigit then
      (name.data.foldl (fun n c => n * 10 + (c.toNat - 48)) 0) < xs.length
    else false)
  | _ => false

/-- `PlannerService.createFallbackPlan`: prefer a `GET` endpoint without path
parameters and without required parameters; else any endpoint without required
parameters; else fail. -/
def createFallbackPlan (metadata : ApiMetadata) : Except String ExecutionPlan :=
  let getEndpoints := metadata.endpoints.filter (fun ep =>
    ep.method = "GET" && !(ep.path.data.contains '{') &&
      (ep.parameters.filter (fun p => p.required)).length = 0)
  match getEndpoints with
  | endpoint :: _ =>
    .ok { steps := [{ endpoint := endpointKey endpoint, params := .obj [] }] }
  | [] =>
    let simpleEndpoints := metadata.endpoints.filter (fun ep =>
      (ep.parameters.filter (fun p => p.required)).length = 0)
    match simpleEndpoints with
    | endpoint :: _ =>
      .ok { steps := [{ endpoint := endpointKey endpoint, params := .obj [] }] }
    | [] => .error "No suitable endpoints found for fallback plan. Please check your query and available endpoints."

/-- JS truthiness of the `step.endpoint` / `typeof === 'string'` check: the
value must be a string and (being falsy otherwise) non-empty. -/
def stepEndpointString (step : Json) : Option String :=
  match step with
  | .obj fields =>
    match fields.lookup "endpoint" with
    | some (.str e) => if e = "" then none else some e
    | _ => none
  | _ => none

/-- The `step.params` check of `validatePlan`: present and of JS type
`object` (a JSON object or array; `null` is falsy and rejected). -/
def stepParamsObject (step : Json) : Option Json :=
  match step with
  | .obj fields =>
    match fields.lookup "params" with
    | some (.obj o) => some (.obj o)
    | some (.arr a) => some (.arr a)
    | _ => none
  | _ => none

/-- The per-step loop of `validatePlan`, checking each step at its index and
collecting the typed steps. -/
def validateSteps (metadata : ApiMetadata) : List Json → Except String (List PlanStep)
  | [] => .ok []
  | step :: rest =>
    match stepEndpointString step with
    | none => .error "endpoint must be a string"
    | some e =>
      match stepParamsObject step with
      | none => .error "params must be an object"
      | some ps =>
        match findEndpoint metadata e with
        | none => .error ("Unknown endpoint " ++ e)
        | some endpoint =>
          let requiredParams := endpoint.parameters.filter (fun p => p.required)
          if requiredParams.all (fun p => hasKeyJson ps p.name) then
            (validateSteps metadata rest).map ({ endpoint := e, params := ps } :: ·)
          else .error "Missing required parameter"

/-- `PlannerService.validatePlan` (modelled from the decoded JSON value on;
the regex-based extraction of the `{…}` region and `JSON.parse` are not
modelled, both failure modes being the same thrown error).  An empty `steps`
array is replaced by the fallback plan; each step must name a known endpoint
and carry every required parameter; **no check whatsoever is made on
`$.steps[i]` references**. -/
def validatePlan (planJson : Json) (metadata : ApiMetadata) : Except String ExecutionPlan :=
  match planJson with
  | .obj fields =>
    match fields.lookup "steps" with
    | some (.arr steps) =>
      if steps.isEmpty then createFallbackPlan metadata
      else (validateSteps metadata steps).map ({ steps := · })
    | _ => .error "Plan must have a steps array"
  | _ => .error "Plan must have a steps array"

/-! ## Context cache (`CacheService`) -/

/-- `CachedResponseData` of `CacheService`. -/
structure CachedResponseData where
  projectId : ℕ
  query : String
  data : Json
  timestamp : ℕ
  executionTime : ℕ
  endpoint : String

/-- One entry of a per-user session list. -/
structure SessionEntry where
  cacheKey : String
  query : String
  timestamp : ℕ

/-- The two `NodeCache` stores `findRelevantContext` reads (TTL expiry is not
modelled: entries present are entries that have not expired). -/
structure CacheState where
  cache : List (String × CachedResponseData)
  userSessionCache : List (String × List SessionEntry)

/-- `CacheService.getResponseData`. -/
def getResponseData (st : CacheState) (cacheKey : String) : Option CachedResponseData :=
  st.cache.lookup cacheKey

/-- `CacheService.getUserSessionData`: map each session entry to its cached
data and drop the entries whose data has expired. -/
def getUserSessionData (st : CacheState) (userId : String) :
    List (String × String × CachedResponseData) :=
  match st.userSessionCache.lookup userId with
  | none => []
  | some sessionData =>
    sessionData.filterMap (fun session =>
      (getResponseData st session.cacheKey).map (fun d => (session.cacheKey, session.query, d)))

/-- The stop-word list of `CacheService.extractKeywords`. -/
def commonWords : List String :=
  ["get", "find", "show", "list", "create", "update", "delete", "the", "a", "an",
   "and", "or", "with", "for", "of", "in", "on", "at", "to", "from"]

/-- `CacheService.extractKeywords`. -/
def extractKeywords (query : String) : List String :=
  ((splitWs (lowerS query)).filter (fun word =>
    decide (word.data.length > 2) && !(commonWords.contains word))).take 5

/-- `CacheService.hasRelevantKeywords`. -/
def hasRelevantKeywords (cachedQuery : String) (keywords : List String) : Bool :=
  keywords.any (fun keyword => containsS (lowerS cachedQuery) keyword)

/-- `CacheService.calculateRelevanceScore`: +2 per exact keyword match, then
+1 per (current keyword, cached keyword) pair matching as substrings in either
direction. -/
def calculateRelevanceScore (cachedQuery currentQuery : String) : ℕ :=
  let cachedKeywords := extractKeywords cachedQuery
  let currentKeywords := extractKeywords currentQuery
  let exactScore := (currentKeywords.filter (fun k => cachedKeywords.contains k)).length * 2
  let partScore := (currentKeywords.map (fun keyword =>
    (cachedKeywords.filter (fun cachedKeyword =>
      containsS keyword cachedKeyword || containsS cachedKeyword keyword)).length)).sum
  exactScore + partScore

/-- The order induced by the comparator of `findRelevantContext`:
relevance score descending, then timestamp descending. -/
def relevanceOrder (a b : CachedResponseData × ℕ) : Prop :=
  b.2 < a.2 ∨ (a.2 = b.2 ∧ b.1.timestamp ≤ a.1.timestamp)

instance : DecidableRel relevanceOrder := fun a b =>
  inferInstanceAs (Decidable (b.2 < a.2 ∨ (a.2 = b.2 ∧ b.1.timestamp ≤ a.1.timestamp)))

instance : IsTotal (CachedResponseData × ℕ) relevanceOrder :=
  ⟨fun a b => by
    unfold relevanceOrder
    rcases lt_trichotomy a.2 b.2 with h | h | h
    · exact Or.inr (Or.inl h)
    · rcases le_total a.1.timestamp b.1.timestamp with ht | ht
      · exact Or.inr (Or.inr ⟨h.symm, ht⟩)
      · exact Or.inl (Or.inr ⟨h, ht⟩)
    · exact Or.inl (Or.inl h)⟩

instance : IsTrans (CachedResponseData × ℕ) relevanceOrder :=
  ⟨fun a b c hab hbc => by
    unfold relevanceOrder at *
    rcases hab with h1 | ⟨h1, h1t⟩ <;> rcases hbc with h2 | ⟨h2, h2t⟩ <;>
      [exact Or.inl (h2.trans h1); exact Or.inl (h2 ▸ h1);
       exact Or.inl (h1 ▸ h2); exact Or.inr ⟨h1.trans h2, h2t.trans h1t⟩]⟩

/-- `CacheService.findRelevantContext`: gather relevant entries from the
caller's session list (no project filter there), then from the whole response
cache filtered to the project with timestamp-based de-duplication; sort by
(relevance desc, recency desc) and keep the top 5. -/
def findRelevantContext (st : CacheState) (projectId : ℕ) (currentQuery : String)
    (userId : Option String) : List CachedResponseData :=
  let keywords := extractKeywords currentQuery
  let fromSession :=
    match userId with
    | some u =>
      (getUserSessionData st u).foldl (fun acc session =>
        if hasRelevantKeywords session.2.2.query keywords then acc ++ [session.2.2] else acc) []
    | none => []
  let relevantData := st.cache.foldl (fun acc kv =>
    if decide (kv.2.projectId = projectId) && hasRelevantKeywords kv.2.query keywords &&
        !(acc.any (fun item => item.timestamp == kv.2.timestamp)) then
      acc ++ [kv.2]
    else acc) fromSession
  let scored := relevantData.map (fun d => (d, calculateRelevanceScore d.query currentQuery))
  ((scored.insertionSort relevanceOrder).map Prod.fst).take 5

/-! ## Auth forwarding (`AuthService.createAuthHeaders`, `ExecutorService.executeStep`) -/

/-- The `authType` discriminant of `UserContext`. -/
inductive AuthType where
  | session : AuthType
  | bearer : AuthType
  | none : AuthType
deriving DecidableEq, Repr

/-- `UserContext` of `AuthService`. -/
structure UserContext where
  sessionCookie : Option String := Option.none
  cookieName : Option String := Option.none
  bearerToken : Option String := Option.none
  authType : AuthType

/-- `AuthService.createAuthHeaders`. -/
def createAuthHeaders (userContext : Option UserContext) : List (String × String) :=
  match userContext with
  | Option.none => []
  | some ctx =>
    if ctx.authType = .none then []
    else if ctx.authType = .bearer ∧ ctx.bearerToken.isSome then
      [("Authorization", "Bearer " ++ ctx.bearerToken.getD "")]
    else if ctx.authType = .session ∧ ctx.sessionCookie.isSome ∧ ctx.cookieName.isSome then
      [("Cookie", ctx.cookieName.getD "" ++ "=" ++ ctx.sessionCookie.getD "")]
    else []

/-- The outgoing headers `ExecutorService.executeStep` assembles before the
parameter categorization: the fixed `Content-Type` entry, then
(`Object.assign`) the auth headers when a user context is present.  Header-kind
request parameters are injected afterwards and are not modelled here. -/
def executeStepHeaders (userContext : Option UserContext) : List (String × String) :=
  [("Content-Type", "application/json")] ++ createAuthHeaders userContext

/-! ## Executor: sequential plan execution with early termination -/

/-- The failure of one HTTP dispatch, as the executor's `catch` sees it. -/
structure HttpFailure where
  status : Option ℕ
  message : String

/-- JS truthiness of an optional string (`undefined` and `""` are falsy). -/
def jsTruthy (s : Option String) : Bool :=
  match s with
  | some v => !v.data.isEmpty
  | Option.none => false

/-- The generic status-code table of `ExecutorService.handleStepError`. -/
def statusMessages (statusCode : ℕ) : Option String :=
  [(400, "Bad request - please check your parameters"),
   (401, "Authentication required - please log in"),
   (403, "Permission denied - you don't have access to this resource"),
   (404, "Resource not found"),
   (422, "Invalid data provided"),
   (429, "Too many requests - please try again later"),
   (500, "Server error - please try again later"),
   (502, "Service temporarily unavailable"),
   (503, "Service temporarily unavailable")].lookup statusCode

/-- `ExecutorService.handleStepError` (the `ResponseMessage` repository lookup
and the network-error-code cases are absorbed into the message fallback; no
claim depends on them). -/
def handleStepError (e : HttpFailure) : String :=
  match e.status with
  | some statusCode =>
    (statusMessages statusCode).getD ("Request failed with status " ++ toString statusCode)
  | Option.none => "Request failed: " ++ e.message

/-- `ExecutorService.checkIfResponseSatisfiesRequest`: the LLM judge's reply;
`none` models a thrown error or a missing completion, and yields `false`
("continue execution if analysis fails").  A reply satisfies iff it trims and
upper-cases to `YES`. -/
def checkIfResponseSatisfiesRequest (llmReply : Option String) : Bool :=
  match llmReply with
  | some content => upperS (trimS content) == "YES"
  | Option.none => false

/-- The `terminationReason` string of the early return of `executePlan`. -/
def terminationMessage (step total : ℕ) : String :=
  "User request satisfied after step " ++ toString step ++ " of " ++ toString total

/-- `ExecutionResult` of `ExecutorService` (`earlyTermination` left `undefined`
is modelled as `false`). -/
structure ExecutionResult where
  success : Bool
  steps : List StepResult
  finalResult : Option Json := Option.none
  error : Option String := Option.none
  totalTime : ℕ := 0
  earlyTermination : Bool := false
  terminationReason : Option String := Option.none

/-- `finalResult` of the all-steps-completed return:
`stepResults[stepResults.length - 1]?.response`. -/
def lastResponse (stepResults : List StepResult) : Option Json :=
  match stepResults.getLast? with
  | some r => r.response
  | Option.none => Option.none

/-- The step loop of `ExecutorService.executePlan`.  `http i` is the outcome of
the dispatched call of step `i` (parameter interpolation, URL building and the
retry/backoff of `makeHttpRequest` are inside this oracle; a thrown error
surfaces as `.error`); `judge i` is the LLM judge's reply after step `i`.  The
judge is consulted only when a (truthy) user message was given and the step is
not the last one; `YES` returns early with `earlyTermination = true`; a step
error aborts with `success = false`. -/
def executePlanLoop (http : ℕ → Except HttpFailure (ℕ × Json))
    (judge : ℕ → Option String) (userMessage : Option String) (totalSteps : ℕ) :
    List PlanStep → ℕ → List StepResult → ExecutionResult
  | [], _, stepResults =>
    { success := true, steps := stepResults, finalResult := lastResponse stepResults }
  | step :: rest, i, stepResults =>
    match http i with
    | .ok result =>
      let satisfies :=
        if jsTruthy userMessage && decide (i < totalSteps - 1) then
          some (checkIfResponseSatisfiesRequest (judge i))
        else Option.none
      let stepResult : StepResult :=
        { stepIndex := i, endpoint := step.endpoint, success := true,
          statusCode := some result.1, response := some result.2,
          satisfiesUserRequest := satisfies }
      let stepResults' := stepResults ++ [stepResult]
      if satisfies = some true then
        { success := true, steps := stepResults', finalResult := some result.2,
          earlyTermination := true,
          terminationReason := some (terminationMessage (i + 1) totalSteps) }
      else executePlanLoop http judge userMessage totalSteps rest (i + 1) stepResults'
    | .error e =>
      let stepResult : StepResult :=
        { stepIndex := i, endpoint := step.endpoint, success := false,
          statusCode := e.status, error := some e.message }
      { success := false, steps := stepResults ++ [stepResult],
        error := some (handleStepError e) }

/-- `ExecutorService.executePlan` (project lookup and base-URL resolution are
not modelled; they precede the loop and fail the whole plan). -/
def executePlan (plan : ExecutionPlan) (http : ℕ → Except HttpFailure (ℕ × Json))
    (judge : ℕ → Option String) (userMessage : Option String) : ExecutionResult :=
  executePlanLoop http judge userMessage plan.steps.length plan.steps 0 []

/-! ## Chat service: self-healing retry loop -/

/-- The retry analyst's answer (`ChatService.analyzeErrorWithLLM`). -/
structure ErrorAnalysis where
  shouldRetry : Bool
  correctedQuery : Option String := Option.none
  analysis : String := ""

/-- Outcome and resource counts of one run of the retry loop: `result` is the
returned chat response's success flag (`.error` models a re-thrown planning
error), and `plannerCalls` / `pipelinePasses` count the planner invocations
and full pipeline passes the run performed. -/
structure RetryStats where
  result : Except String Bool
  plannerCalls : ℕ
  pipelinePasses : ℕ

/-- `ChatService.processQueryWithRetry`, with the per-attempt collaborators as
oracles indexed by `retryCount`: `planner r` is the attempt's
`createPlan` outcome (`.error` = a thrown planning error), `executor r` the
attempt's `executePlan` result, `analyzer r` the attempt's error analysis.
`maxRetries = 2`; a retry recurses with `retryCount + 1` and happens only when
`retryCount < maxRetries` and the analyzer approves with a corrected query. -/
def processQueryWithRetry (planner : ℕ → Except String ExecutionPlan)
    (executor : ℕ → ExecutionResult) (analyzer : ℕ → ErrorAnalysis)
    (retryCount : ℕ) : RetryStats :=
  let maxRetries := 2
  match planner retryCount with
  | .error e =>
    if h : retryCount < maxRetries then
      let errorAnalysis := analyzer retryCount
      if errorAnalysis.shouldRetry && jsTruthy errorAnalysis.correctedQuery then
        let rec' := processQueryWithRetry planner executor analyzer (retryCount + 1)
        { rec' with plannerCalls := rec'.plannerCalls + 1,
                    pipelinePasses := rec'.pipelinePasses + 1 }
      else { result := .error e, plannerCalls := 1, pipelinePasses := 1 }
    else { result := .error e, plannerCalls := 1, pipelinePasses := 1 }
  | .ok _plan =>
    let executionResult := executor retryCount
    if executionResult.success then
      { result := .ok true, plannerCalls := 1, pipelinePasses := 1 }
    else
      if h : retryCount < maxRetries then
        let errorAnalysis := analyzer retryCount
        if errorAnalysis.shouldRetry && jsTruthy errorAnalysis.correctedQuery then
          let rec' := processQueryWithRetry planner executor analyzer (retryCount + 1)
          { rec' with plannerCalls := rec'.plannerCalls + 1,
                      pipelinePasses := rec'.pipelinePasses + 1 }
        else { result := .ok false, plannerCalls := 1, pipelinePasses := 1 }
      else { result := .ok false, plannerCalls := 1, pipelinePasses := 1 }
termination_by 3 - retryCount
decreasing_by all_goals omega

/-! ## Planner metadata cache and the error-driven metadata deltas -/

/-- A `RequestParameter` row. -/
structure DbParam where
  endpointId : ℕ
  name : String
  type : String
  required : Bool
  in_ : String
  description : String := ""
deriving DecidableEq, Repr

/-- An `Endpoint` row with its parameters eager-loaded. -/
structure DbEndpoint where
  id : ℕ
  projectId : ℕ
  method : String
  path : String
  summary : String := ""
  requestParameters : List DbParam := []
deriving DecidableEq, Repr

/-- A `ResponseMessage` row. -/
structure DbResponseMessage where
  endpointId : ℕ
  statusCode : ℕ
  message : String
  suggestion : String
deriving DecidableEq, Repr

/-- The persistent store the repositories read and the healer writes. -/
structure Db where
  endpoints : List DbEndpoint
  responseMessages : List DbResponseMessage := []
deriving DecidableEq, Repr

/-- Replace the first element satisfying `p` by its image under `f`
(`findOne` + `save` of a single row). -/
def updateFirstBy (p : α → Bool) (f : α → α) : List α → List α
  | [] => []
  | x :: xs => if p x then f x :: xs else x :: updateFirstBy p f xs

/-- The denormalized metadata `PlannerService.loadApiMetadata` derives from the
database rows of one project (the `ORDER BY path` of the SQL query and the
AI-analysis columns are not modelled; `fieldLinks` are omitted throughout). -/
def metadataOfDb (db : Db) (projectId : ℕ) : ApiMetadata :=
  { endpoints := (db.endpoints.filter (fun ep => decide (ep.projectId = projectId))).map
      (fun endpoint =>
        { id := endpoint.id, path := endpoint.path, method := endpoint.method,
          summary := if endpoint.summary = "" then endpoint.method ++ " " ++ endpoint.path
                     else endpoint.summary,
          parameters := endpoint.requestParameters.map (fun param =>
            { name := param.name, in_ := param.in_,
              type := if param.type = "" then "string" else param.type,
              required := param.required, description := param.description }) }) }

/-- `PlannerService.loadApiMetadata`: serve the cached denormalized metadata
when present, else derive it from the database and cache it.  Returns the
metadata together with the cache state after the call. -/
def loadApiMetadata (metadataCache : List (ℕ × ApiMetadata)) (db : Db)
    (projectId : ℕ) : ApiMetadata × List (ℕ × ApiMetadata) :=
  match metadataCache.lookup projectId with
  | some metadata => (metadata, metadataCache)
  | Option.none =>
    let metadata := metadataOfDb db projectId
    (metadata, (projectId, metadata) :: metadataCache)

/-- `PlannerService.clearCache`.  (This method has no call site anywhere in the
repository.) -/
def clearCache (metadataCache : List (ℕ × ApiMetadata)) (projectId : Option ℕ) :
    List (ℕ × ApiMetadata) :=
  match projectId with
  | some p => metadataCache.filter (fun kv => decide (kv.1 ≠ p))
  | Option.none => []

/-- One `missingParameters` delta of the metadata extractor. -/
structure MissingParam where
  endpointPath : String
  method : String
  parameterName : String
  parameterType : String
  isRequired : Bool
  location : String
deriving DecidableEq, Repr

/-- One `parameterCorrections` delta. -/
structure ParamCorrection where
  endpointPath : String
  method : String
  oldParameterName : String
  newParameterName : String
deriving DecidableEq, Repr

/-- One `errorMessages` delta. -/
structure ErrorMessageDelta where
  endpointPath : String
  method : String
  statusCode : ℕ
  message : String
  suggestion : String
deriving DecidableEq, Repr

/-- The three delta lists of `ChatService.extractMetadataUpdates`. -/
structure MetadataUpdates where
  missingParameters : List MissingParam := []
  parameterCorrections : List ParamCorrection := []
  errorMessages : List ErrorMessageDelta := []
deriving DecidableEq, Repr

/-- Does this endpoint row match a delta's `(projectId, path, method)` key? -/
def endpointMatches (projectId : ℕ) (path method : String) (ep : DbEndpoint) : Bool :=
  decide (ep.projectId = projectId) && ep.path == path && ep.method == upperS method

/-- `ChatService.addMissingParameters`: upsert each delta's parameter on the
matching endpoint (update `required`/`type`/`in` when the name exists, insert
a new row otherwise; a missing endpoint is skipped). -/
def addMissingParameters (db : Db) (projectId : ℕ) (missingParameters : List MissingParam) : Db :=
  missingParameters.foldl (fun db param =>
    let upsertParam := fun (ep : DbEndpoint) =>
      if ep.requestParameters.any (fun q => q.name == param.parameterName) then
        let updated :=
          updateFirstBy (fun q => q.name == param.parameterName)
            (fun q => { q with required := param.isRequired,
                               type := param.parameterType,
                               in_ := param.location })
            ep.requestParameters
        { ep with requestParameters := updated }
      else
        let newParam : DbParam :=
          { endpointId := ep.id, name := param.parameterName,
            type := param.parameterType, required := param.isRequired,
            in_ := param.location,
            description := "Auto-added from error analysis: " ++
              param.parameterName ++ " is required" }
        { ep with requestParameters := ep.requestParameters ++ [newParam] }
    let endpoints :=
      updateFirstBy (endpointMatches projectId param.endpointPath param.method)
        upsertParam db.endpoints
    { db with endpoints := endpoints }) db

/-- `ChatService.correctParameters`: rename the first parameter bearing the old
name on the matching endpoint, when both exist. -/
def correctParameters (db : Db) (projectId : ℕ) (corrections : List ParamCorrection) : Db :=
  corrections.foldl (fun db correction =>
    let renameParam := fun (ep : DbEndpoint) =>
      let renamed :=
        updateFirstBy (fun q => q.name == correction.oldParameterName)
          (fun q => { q with name := correction.newParameterName })
          ep.requestParameters
      { ep with requestParameters := renamed }
    let endpoints :=
      updateFirstBy (endpointMatches projectId correction.endpointPath correction.method)
        renameParam db.endpoints
    { db with endpoints := endpoints }) db

/-- `ChatService.addErrorMessages`: insert a `ResponseMessage` row for the
matching endpoint unless one already exists for that `(endpoint, statusCode)`. -/
def addErrorMessages (db : Db) (projectId : ℕ) (errorMessages : List ErrorMessageDelta) : Db :=
  errorMessages.foldl (fun db errorMsg =>
    match db.endpoints.find? (endpointMatches projectId errorMsg.endpointPath errorMsg.method) with
    | Option.none => db
    | some endpoint =>
      if db.responseMessages.any (fun m =>
          m.endpointId == endpoint.id && m.statusCode == errorMsg.statusCode) then db
      else
        let newMsg : DbResponseMessage :=
          { endpointId := endpoint.id, statusCode := errorMsg.statusCode,
            message := errorMsg.message, suggestion := errorMsg.suggestion }
        { db with responseMessages := db.responseMessages ++ [newMsg] }) db

/-- The shared mutable state the self-healing path touches: the database and
the planner's in-memory metadata cache. -/
structure SelfHealState where
  db : Db
  metadataCache : List (ℕ × ApiMetadata)

/-- `ChatService.updateMetadataFromError`: apply the three delta kinds to the
database.  The body contains no cache invalidation — `PlannerService.clearCache`
is never called — so `metadataCache` is returned untouched. -/
def updateMetadataFromError (st : SelfHealState) (projectId : ℕ)
    (metadataUpdates : MetadataUpdates) : SelfHealState :=
  let db1 := addMissingParameters st.db projectId metadataUpdates.missingParameters
  let db2 := correctParameters db1 projectId metadataUpdates.parameterCorrections
  let db3 := addErrorMessages db2 projectId metadataUpdates.errorMessages
  { st with db := db3 }

/-- The metadata the retried pipeline pass plans against: apply the deltas,
then reload the metadata the way the restarted `createPlan` does. -/
def retriedMetadata (st : SelfHealState) (projectId : ℕ)
    (metadataUpdates : MetadataUpdates) : ApiMetadata :=
  let st' := updateMetadataFromError st projectId metadataUpdates
  (loadApiMetadata st'.metadataCache st'.db projectId).1

/-! ## The spec-side formula for the intent signal (C8) -/

/-- The per-pattern intent signal as the spec's formula reads, with the
substring value the code actually uses (0.9, not the claimed 1.0): 0.9 when
either lower-cased string contains the other, else 0.7 × word-overlap ratio
(common words over the larger word count). -/
def intentPatternSignal (query pattern : String) : ℚ :=
  let queryLower := lowerS query
  let patternLower := lowerS pattern
  if containsS queryLower patternLower || containsS patternLower queryLower then 9 / 10
  else
    let queryWords := splitWs queryLower
    let patternWords := splitWs patternLower
    let commonWords := queryWords.filter (fun word => patternWords.contains word)
    (commonWords.length : ℚ) / (natMax queryWords.length patternWords.length) * (7 / 10)

/-! ## Helper lemmas -/

theorem jsMax_eq_max (a b : ℚ) : jsMax a b = max a b := by
  rw [jsMax, max_def]

theorem natMax_eq_max (a b : ℕ) : natMax a b = max a b := by
  rw [natMax, max_def]

theorem splitWsAux_ne_nil (l : List Char) (acc : List Char) (skipping : Bool) :
    splitWsAux l acc skipping ≠ [] := by
  induction l generalizing acc skipping with
  | nil => cases skipping <;> simp [splitWsAux]
  | cons c rest ih =>
    simp only [splitWsAux]
    split
    · split
      · exact ih acc true
      · simp
    · exact ih (c :: acc) false

theorem splitWs_ne_nil (s : String) : splitWs s ≠ [] := by
  intro h
  exact splitWsAux_ne_nil s.data [] false (List.map_eq_nil_iff.mp h)

theorem intentPatternSignal_nonneg (query pattern : String) :
    0 ≤ intentPatternSignal query pattern := by
  rw [intentPatternSignal]
  split
  · norm_num
  · positivity

theorem overlapTerm_le (qw pw : List String) (hq : qw ≠ []) :
    ((qw.filter (fun word => pw.contains word)).length : ℚ) /
      (natMax qw.length pw.length : ℚ) * (7 / 10) ≤ 9 / 10 := by
  have hlen : (qw.filter (fun word => pw.contains word)).length ≤ natMax qw.length pw.length := by
    rw [natMax_eq_max]
    exact le_trans (List.length_filter_le _ _) (le_max_left _ _)
  have hmpos : (0 : ℚ) < (natMax qw.length pw.length : ℚ) := by
    rw [natMax_eq_max]
    exact_mod_cast lt_of_lt_of_le (List.length_pos.mpr hq) (le_max_left _ _)
  have hratio : ((qw.filter (fun word => pw.contains word)).length : ℚ) /
      (natMax qw.length pw.length : ℚ) ≤ 1 := by
    rw [div_le_one hmpos]
    exact_mod_cast hlen
  calc ((qw.filter (fun word => pw.contains word)).length : ℚ) /
        (natMax qw.length pw.length : ℚ) * (7 / 10)
      ≤ 1 * (7 / 10) := mul_le_mul_of_nonneg_right hratio (by norm_num)
    _ ≤ 9 / 10 := by norm_num

theorem intent_fold_step (query pattern : String) (b : ℚ) (hb : 0 ≤ b) :
    (let queryLower := lowerS query
     let patternLower := lowerS pattern
     let afterSub :=
       if containsS queryLower patternLower || containsS patternLower queryLower then
         jsMax b (9 / 10)
       else b
     let queryWords := splitWs queryLower
     let patternWords := splitWs patternLower
     let commonWords := queryWords.filter (fun word => patternWords.contains word)
     if commonWords.length > 0 then
       jsMax afterSub ((commonWords.length : ℚ) /
         (natMax queryWords.length patternWords.length) * (7 / 10))
     else afterSub) = jsMax b (intentPatternSignal query pattern) := by
  have hterm := overlapTerm_le (splitWs (lowerS query)) (splitWs (lowerS pattern))
    (splitWs_ne_nil _)
  simp only [jsMax_eq_max]
  rw [intentPatternSignal]
  by_cases hsub : (containsS (lowerS query) (lowerS pattern) ||
      containsS (lowerS pattern) (lowerS query)) = true
  · simp only [hsub, if_true, jsMax_eq_max]
    split
    · exact max_eq_left (le_trans hterm (le_max_right _ _))
    · rfl
  · rw [Bool.not_eq_true] at hsub
    simp only [hsub, Bool.false_eq_true, if_false]
    split
    · rfl
    · rename_i hcommon
      have hzero : ((List.filter (fun word => (splitWs (lowerS pattern)).contains word)
          (splitWs (lowerS query))).length : ℚ) = 0 := by
        simp only [not_lt, Nat.le_zero] at hcommon
        exact_mod_cast hcommon
      rw [hzero, zero_div, zero_mul, max_eq_left hb]

theorem intentPatternSignal_nonneg2 (query pattern : String) :
    0 ≤ intentPatternSignal query pattern := intentPatternSignal_nonneg query pattern

/-! ## C8 -/

/-- **C8, counterexample.**  The claim says a substring containment (either
direction) contributes `1.0` to the intent signal; on query `"a"` and the
single pattern `"a"` (which contain each other) the code computes `0.9`, not
`1.0`. -/
theorem c8_substring_value_counterexample :
    calculateIntentSimilarity "a" ["a"] = 9 / 10 ∧ ((9 : ℚ) / 10) ≠ 1 := by
  constructor
  · decide
  · decide

/-- **C8 (amended).**  For every query and pattern list, the intent signal
equals the maximum (folded from 0) over the patterns of: **0.9** when either
of the lower-cased strings contains the other as a substring, and otherwise
0.7 × the word-overlap ratio (common words divided by the larger word
count). -/
theorem c8_intent_signal_formula (query : String) (intentPatterns : List String) :
    calculateIntentSimilarity query intentPatterns =
      (intentPatterns.map (intentPatternSignal query)).foldl jsMax 0 := by
  rw [calculateIntentSimilarity]
  have key : ∀ (ps : List String) (b : ℚ), 0 ≤ b →
      ps.foldl (fun bestScore pattern =>
        let queryLower := lowerS query
        let patternLower := lowerS pattern
        let afterSub :=
          if containsS queryLower patternLower || containsS patternLower queryLower then
            jsMax bestScore (9 / 10)
          else bestScore
        let queryWords := splitWs queryLower
        let patternWords := splitWs patternLower
        let commonWords := queryWords.filter (fun word => patternWords.contains word)
        if commonWords.length > 0 then
          jsMax afterSub ((commonWords.length : ℚ) /
            (natMax queryWords.length patternWords.length) * (7 / 10))
        else afterSub) b =
      (ps.map (intentPatternSignal query)).foldl jsMax b := by
    intro ps
    induction ps with
    | nil => intro b _; rfl
    | cons p rest ih =>
      intro b hb
      simp only [List.foldl_cons, List.map_cons]
      rw [intent_fold_step query p b hb]
      exact ih _ (by
        rw [jsMax_eq_max]
        exact le_trans hb (le_max_left _ _))
  exact key intentPatterns 0 (le_refl 0)

/-! ## C1 -/

/-- **C1, counterexample.**  The claim says a JSONPath query with zero matches
makes the step fail with a resolution error.  In the code the resolution error
is caught inside `interpolateParameters` and the original value is kept, so
the step proceeds: with no previous results, `$.steps[0].response.id` parses,
matches nothing, and the parameter comes back unchanged — no error reaches the
step. -/
theorem c1_miss_not_fatal_counterexample :
    parseJSONPath "$.steps[0].response.id" =
      some [.key "steps", .idx 0, .key "response", .key "id"] ∧
    queryJson [.key "steps", .idx 0, .key "response", .key "id"] (dataContext []) = [] ∧
    resolveJSONPath "$.steps[0].response.id" [] =
      .error "JSONPath $.steps[0].response.id returned no results" ∧
    interpolateParameters [("id", .str "$.steps[0].response.id")] [] =
      [("id", .str "$.steps[0].response.id")] :=
  ⟨rfl, rfl, rfl, rfl⟩

/-- **C1 (amended).**  Each parameter whose value is a string starting with
`$.` is resolved via JSONPath against the context of prior step results; a
query with zero matches (or an unparsable path) leaves the parameter at its
original string value and the step proceeds — the miss is logged, not fatal;
a single match becomes the value itself; several matches collapse to the array
of all matches.  Non-reference values pass through unchanged. -/
theorem c1_interpolation_behavior (s : String) (previousResults : List StepResult)
    (segs : List PathSeg) (hparse : parseJSONPath s = some segs)
    (hpre : startsWithS s "$." = true) :
    (queryJson segs (dataContext previousResults) = [] →
      interpolateValue (.str s) previousResults = .str s) ∧
    (∀ m, queryJson segs (dataContext previousResults) = [m] →
      interpolateValue (.str s) previousResults = m) ∧
    (∀ m₁ m₂ ms, queryJson segs (dataContext previousResults) = m₁ :: m₂ :: ms →
      interpolateValue (.str s) previousResults = .arr (m₁ :: m₂ :: ms)) ∧
    (∀ params, interpolateParameters params previousResults =
      params.map (fun kv => (kv.1, interpolateValue kv.2 previousResults))) := by
  refine ⟨?_, ?_, ?_, fun params => rfl⟩
  · intro h
    simp [interpolateValue, hpre, resolveJSONPath, hparse, h]
  · intro m h
    simp [interpolateValue, hpre, resolveJSONPath, hparse, h]
  · intro m₁ m₂ ms h
    simp [interpolateValue, hpre, resolveJSONPath, hparse, h]

/-- The step context used by the C1 witness: one prior step whose response is
`{id: 7}`. -/
def c1Prev : List StepResult :=
  [{ stepIndex := 0, endpoint := "GET /users", success := true,
     statusCode := some 200, response := some (.obj [("id", .num 7)]) }]

/-- Witness for C1's theorem at a concrete input: a single-match reference
resolves to the matched value. -/
theorem c1_interpolation_behavior_witness :
    interpolateValue (.str "$.steps[0].response.id") c1Prev = .num 7 :=
  (c1_interpolation_behavior "$.steps[0].response.id" c1Prev
    [.key "steps", .idx 0, .key "response", .key "id"] rfl rfl).2.1 (.num 7) rfl

/-! ## C9 -/

/-- **C9 (confirmed).**  For the headers the executor assembles for an
outbound request: a bearer auth context yields an
`Authorization: Bearer <token>` entry, a session-cookie context yields a
`Cookie: <name>=<value>` entry, and with `authType = none` (or no context at
all) neither header is added. -/
theorem c9_auth_forwarding (ctx : UserContext) :
    (∀ t, ctx.authType = .bearer → ctx.bearerToken = some t →
      (executeStepHeaders (some ctx)).lookup "Authorization" = some ("Bearer " ++ t)) ∧
    (∀ n v, ctx.authType = .session → ctx.cookieName = some n → ctx.sessionCookie = some v →
      (executeStepHeaders (some ctx)).lookup "Cookie" = some (n ++ "=" ++ v)) ∧
    (ctx.authType = .none →
      (executeStepHeaders (some ctx)).lookup "Authorization" = Option.none ∧
      (executeStepHeaders (some ctx)).lookup "Cookie" = Option.none) ∧
    createAuthHeaders Option.none = [] := by
  refine ⟨?_, ?_, ?_, rfl⟩
  · intro t h1 h2
    simp [executeStepHeaders, createAuthHeaders, h1, h2, List.lookup]
  · intro n v h1 h2 h3
    simp [executeStepHeaders, createAuthHeaders, h1, h2, h3, List.lookup]
  · intro h1
    simp [executeStepHeaders, createAuthHeaders, h1, List.lookup]

/-- A bearer-token context for the C9 witness. -/
def c9BearerCtx : UserContext := { bearerToken := some "tok", authType := .bearer }

/-- A session-cookie context for the C9 witness. -/
def c9SessionCtx : UserContext :=
  { cookieName := some "session", sessionCookie := some "abc", authType := .session }

/-- An unauthenticated context for the C9 witness. -/
def c9NoneCtx : UserContext := { authType := .none }

/-- Witness for C9's theorem: one concrete context per auth kind. -/
theorem c9_auth_forwarding_witness :
    (executeStepHeaders (some c9BearerCtx)).lookup "Authorization" = some "Bearer tok" ∧
    (executeStepHeaders (some c9SessionCtx)).lookup "Cookie" = some "session=abc" ∧
    (executeStepHeaders (some c9NoneCtx)).lookup "Authorization" = Option.none :=
  ⟨(c9_auth_forwarding c9BearerCtx).1 "tok" rfl rfl,
   (c9_auth_forwarding c9SessionCtx).2.1 "session" "abc" rfl rfl rfl,
   ((c9_auth_forwarding c9NoneCtx).2.2.1 rfl).1⟩

/-! ## C10 -/

theorem foldl_add_sq_zero (l : List ℚ) (h : ∀ x ∈ l, x = 0) :
    ∀ a : ℚ, l.foldl (fun s x => s + x * x) a = a := by
  induction l with
  | nil => intro a; rfl
  | cons y ys ih =>
    intro a
    have hy : y = 0 := h y (List.mem_cons_self y ys)
    rw [List.foldl_cons, hy, mul_zero, add_zero]
    exact ih (fun x hx => h x (List.mem_cons_of_mem y hx)) a

/-- **C10 (confirmed).**  The cosine similarity is total: a length mismatch
returns 0; a zero magnitude (in particular a stored embedding that is all
zeros) hits the guard and returns 0 — no division is performed in either
case. -/
theorem c10_cosine_guarded (vector1 vector2 : List ℚ) :
    (vector1.length ≠ vector2.length → calculateCosineSimilarity vector1 vector2 = 0) ∧
    (Rat.sqrt (vector1.foldl (fun s x => s + x * x) 0) *
        Rat.sqrt (vector2.foldl (fun s x => s + x * x) 0) = 0 →
      calculateCosineSimilarity vector1 vector2 = 0) ∧
    ((∀ x ∈ vector2, x = 0) → calculateCosineSimilarity vector1 vector2 = 0) := by
  refine ⟨?_, ?_, ?_⟩
  · intro h
    simp [calculateCosineSimilarity, h]
  · intro h
    by_cases hlen : vector1.length ≠ vector2.length
    · simp [calculateCosineSimilarity, hlen]
    · simp [calculateCosineSimilarity, hlen, h]
  · intro h
    by_cases hlen : vector1.length ≠ vector2.length
    · simp [calculateCosineSimilarity, hlen]
    · have hz : vector2.foldl (fun s x => s + x * x) 0 = 0 := foldl_add_sq_zero vector2 h 0
      have hsqrt : Rat.sqrt (vector2.foldl (fun s x => s + x * x) 0) = 0 := by
        rw [hz]; decide
      simp [calculateCosineSimilarity, hlen, hsqrt]

/-- Witness for C10's theorem: a mismatched pair and an all-zero embedding. -/
theorem c10_cosine_guarded_witness :
    calculateCosineSimilarity [1] [0, 0] = 0 ∧ calculateCosineSimilarity [0] [0] = 0 :=
  ⟨(c10_cosine_guarded [1] [0, 0]).1 (by decide),
   (c10_cosine_guarded [0] [0]).2.2 (by
     intro x hx
     simpa using hx)⟩

/-! ## C7 -/

/-- The two endpoints of the C7 counterexample: with query `"a"` and no query
embedding, the first scores 0.3 (full keyword match) and the second scores
exactly 0.2 (one of three keywords, plus the 0.1 prompt-text boost). -/
def c7e1 : EndpointMeta :=
  { id := 1, path := "/users", method := "GET", summary := "list users", keywords := ["a"] }

/-- The endpoint scoring exactly the 0.2 threshold in the C7 counterexample. -/
def c7e2 : EndpointMeta :=
  { id := 2, path := "/pets", method := "GET", summary := "list pets",
    keywords := ["a", "b", "c"], promptText := some "this is a long description text" }

/-- **C7, counterexample.**  The claim says the resolver returns exactly the
endpoints whose score is **at least** 0.2.  The code filters with a strict
`> 0.2`: here the second endpoint scores exactly 0.2 yet is dropped (the first
endpoint passes, so the fail-open branch is not taken either). -/
theorem c7_threshold_strict_counterexample :
    endpointScore Option.none "a" c7e2 = 1 / 5 ∧
    endpointScore Option.none "a" c7e1 = 3 / 10 ∧
    resolveIntent Option.none "a" [c7e1, c7e2] = [c7e1] := by
  refine ⟨by decide, by decide, by decide⟩

/-- **C7 (amended).**  The intent resolver returns exactly the endpoints whose
score is **strictly greater than** the 0.2 threshold, sorted in descending
score order; whenever no endpoint exceeds the threshold it returns the full
endpoint catalog unfiltered (fail-open), so the returned list is never empty
when the catalog is non-empty. -/
theorem c7_resolve_intent (queryEmbedding : Option (List ℚ)) (userQuery : String)
    (endpoints : List EndpointMeta) :
    ((∀ ep ∈ endpoints, endpointScore queryEmbedding userQuery ep ≤ 1 / 5) →
      resolveIntent queryEmbedding userQuery endpoints = endpoints) ∧
    ((∃ ep ∈ endpoints, 1 / 5 < endpointScore queryEmbedding userQuery ep) →
      (∀ e, e ∈ resolveIntent queryEmbedding userQuery endpoints ↔
        e ∈ endpoints ∧ 1 / 5 < endpointScore queryEmbedding userQuery e) ∧
      (resolveIntent queryEmbedding userQuery endpoints).Pairwise
        (fun a b => endpointScore queryEmbedding userQuery b ≤
          endpointScore queryEmbedding userQuery a)) ∧
    (endpoints ≠ [] → resolveIntent queryEmbedding userQuery endpoints ≠ []) := by
  have hmemscored : ∀ p, p ∈ endpoints.map
      (fun ep => (ep, endpointScore queryEmbedding userQuery ep)) →
      p.2 = endpointScore queryEmbedding userQuery p.1 := by
    intro p hp
    obtain ⟨ep, _, rfl⟩ := List.mem_map.mp hp
    rfl
  have hperm := List.perm_insertionSort scoreGe
    ((endpoints.map (fun ep => (ep, endpointScore queryEmbedding userQuery ep))).filter
      (fun p => decide ((1 : ℚ) / 5 < p.2)))
  refine ⟨?_, ?_, ?_⟩
  · intro hall
    have hfil : (endpoints.map
        (fun ep => (ep, endpointScore queryEmbedding userQuery ep))).filter
        (fun p => decide ((1 : ℚ) / 5 < p.2)) = [] := by
      rw [List.filter_eq_nil_iff]
      intro p hp
      simp only [decide_eq_true_eq, not_lt]
      rw [hmemscored p hp]
      obtain ⟨ep, hep, rfl⟩ := List.mem_map.mp hp
      exact hall ep hep
    rw [resolveIntent]
    simp only [hfil]
    have : (List.insertionSort scoreGe
        ([] : List (EndpointMeta × ℚ))).isEmpty = true := rfl
    simp [this]
  · intro ⟨ep0, hep0, hsc0⟩
    have hmem0 : (ep0, endpointScore queryEmbedding userQuery ep0) ∈
        (endpoints.map (fun ep => (ep, endpointScore queryEmbedding userQuery ep))).filter
          (fun p => decide ((1 : ℚ) / 5 < p.2)) := by
      rw [List.mem_filter]
      exact ⟨List.mem_map.mpr ⟨ep0, hep0, rfl⟩, by simpa using hsc0⟩
    have hsne : (List.insertionSort scoreGe
        ((endpoints.map (fun ep => (ep, endpointScore queryEmbedding userQuery ep))).filter
          (fun p => decide ((1 : ℚ) / 5 < p.2)))).isEmpty = false := by
      rw [List.isEmpty_eq_false]
      intro hnil
      rw [List.eq_nil_iff_forall_not_mem] at hnil
      exact hnil _ (hperm.mem_iff.mpr hmem0)
    rw [resolveIntent]
    simp only [hsne, Bool.false_eq_true, if_false]
    constructor
    · intro e
      constructor
      · intro he
        obtain ⟨q, hq, rfl⟩ := List.mem_map.mp he
        have hqf := hperm.mem_iff.mp hq
        rw [List.mem_filter] at hqf
        obtain ⟨hqs, hqlt⟩ := hqf
        obtain ⟨ep, hep, rfl⟩ := List.mem_map.mp hqs
        exact ⟨hep, by simpa using hqlt⟩
      · intro ⟨he, hlt⟩
        refine List.mem_map.mpr ⟨(e, endpointScore queryEmbedding userQuery e), ?_, rfl⟩
        refine hperm.mem_iff.mpr ?_
        rw [List.mem_filter]
        exact ⟨List.mem_map.mpr ⟨e, he, rfl⟩, by simpa using hlt⟩
    · have hsorted := List.sorted_insertionSort scoreGe
        ((endpoints.map (fun ep => (ep, endpointScore queryEmbedding userQuery ep))).filter
          (fun p => decide ((1 : ℚ) / 5 < p.2)))
      rw [List.Sorted] at hsorted
      rw [List.pairwise_map]
      refine hsorted.imp_of_mem ?_
      intro a b ha hb hab
      have ha2 := hmemscored a (List.mem_filter.mp (hperm.mem_iff.mp ha)).1
      have hb2 := hmemscored b (List.mem_filter.mp (hperm.mem_iff.mp hb)).1
      rw [scoreGe] at hab
      rw [← ha2, ← hb2]
      exact hab
  · intro hne
    rw [resolveIntent]
    split
    · exact hne
    · rename_i hfalse
      intro hmapnil
      rw [List.isEmpty_iff] at hfalse
      rw [List.map_eq_nil_iff] at hmapnil
      exact hfalse hmapnil

/-- Witness for C7's theorem at a concrete input: with one endpoint scoring
0.3, the filtered branch is taken and membership matches the strict
threshold. -/
theorem c7_resolve_intent_witness :
    c7e1 ∈ resolveIntent Option.none "a" [c7e1] ∧
    resolveIntent Option.none "a" [c7e1] ≠ [] :=
  ⟨((c7_resolve_intent Option.none "a" [c7e1]).2.1
      ⟨c7e1, List.mem_singleton.mpr rfl, by decide⟩).1 c7e1 |>.mpr
      ⟨List.mem_singleton.mpr rfl, by decide⟩,
   (c7_resolve_intent Option.none "a" [c7e1]).2.2 (by simp)⟩

/-! ## C2 -/

/-- The project-2 cache entry of the C2 counterexample. -/
def c2Data : CachedResponseData :=
  { projectId := 2, query := "pets list", data := .null, timestamp := 100,
    executionTime := 1, endpoint := "GET /pets" }

/-- A cache state where user `u`'s session list points at a project-2 entry. -/
def c2State : CacheState :=
  { cache := [("k1", c2Data)],
    userSessionCache := [("u", [{ cacheKey := "k1", query := "pets list", timestamp := 100 }])] }

/-- **C2, counterexample.**  `findRelevantContext(1, "pets", "u")` returns the
project-2 entry reached through user `u`'s session list: the session path
performs no project filter, so the claim's isolation invariant fails. -/
theorem c2_session_cross_project_counterexample :
    (findRelevantContext c2State 1 "pets" (some "u")).map (fun d => d.projectId) = [2] := by
  rfl

/-- The fold of the project-wide scan only ever appends entries of the
requested project to its accumulator. -/
theorem c2_scan_fold_inv (projectId : ℕ) (keywords : List String) :
    ∀ (cache : List (String × CachedResponseData)) (acc : List CachedResponseData),
      (∀ d ∈ acc, d.projectId = projectId) →
      ∀ d ∈ cache.foldl (fun acc kv =>
        if decide (kv.2.projectId = projectId) && hasRelevantKeywords kv.2.query keywords &&
            !(acc.any (fun item => item.timestamp == kv.2.timestamp)) then
          acc ++ [kv.2]
        else acc) acc, d.projectId = projectId := by
  intro cache
  induction cache with
  | nil => intro acc hacc; exact hacc
  | cons kv rest ih =>
    intro acc hacc
    rw [List.foldl_cons]
    split
    · rename_i hcond
      refine ih _ ?_
      intro d hd
      rcases List.mem_append.mp hd with h | h
      · exact hacc d h
      · rw [List.mem_singleton.mp h]
        simp only [Bool.and_eq_true, decide_eq_true_eq] at hcond
        exact hcond.1.1
    · exact ih acc hacc

/-- **C2 (amended).**  Entries found through the project-wide cache scan are
filtered to the requested project, but entries reached through the per-user
session list are not: when no user id is supplied, every entry returned by
`findRelevantContext` has the requested project id. -/
theorem c2_isolation_without_user (st : CacheState) (projectId : ℕ) (currentQuery : String) :
    ∀ d ∈ findRelevantContext st projectId currentQuery Option.none,
      d.projectId = projectId := by
  intro d hd
  rw [findRelevantContext] at hd
  have hd2 := List.take_subset 5 _ hd
  obtain ⟨q, hq, rfl⟩ := List.mem_map.mp hd2
  have hq2 := (List.perm_insertionSort relevanceOrder _).mem_iff.mp hq
  obtain ⟨e, he, rfl⟩ := List.mem_map.mp hq2
  exact c2_scan_fold_inv projectId (extractKeywords currentQuery) st.cache [] (by simp) e he

/-- The project-1 entry of the C2 witness. -/
def c2DataB : CachedResponseData :=
  { projectId := 1, query := "pets list", data := .null, timestamp := 100,
    executionTime := 1, endpoint := "GET /pets" }

/-- A cache state holding only the project-1 entry, with no session lists. -/
def c2StateB : CacheState :=
  { cache := [("k1", c2DataB)], userSessionCache := [] }

/-- Witness for C2's theorem at a concrete input. -/
theorem c2_isolation_without_user_witness : c2DataB.projectId = 1 :=
  c2_isolation_without_user c2StateB 1 "pets" c2DataB (by
    rw [show findRelevantContext c2StateB 1 "pets" Option.none = [c2DataB] from rfl]
    exact List.mem_singleton.mpr rfl)

/-! ## C3 -/

theorem lookup_mem {α β : Type} [BEq α] [LawfulBEq α] :
    ∀ (l : List (α × β)) (k : α) (v : β), l.lookup k = some v → (k, v) ∈ l := by
  intro l
  induction l with
  | nil => intro k v h; cases h
  | cons kv rest ih =>
    intro k v h
    rw [List.lookup] at h
    by_cases hk : (k == kv.1) = true
    · rw [hk] at h
      simp only [Option.some.injEq] at h
      have hk1 : kv.1 = k := (eq_of_beq hk).symm
      have hkv : (k, v) = kv := by
        rw [← hk1, ← h]
      rw [hkv]
      exact List.mem_cons_self kv rest
    · rw [Bool.not_eq_true] at hk
      rw [hk] at h
      exact List.mem_cons_of_mem kv (ih k v h)

theorem findEndpoint_sound (metadata : ApiMetadata) (key : String) (ep : EndpointMeta)
    (h : findEndpoint metadata key = some ep) :
    ep ∈ metadata.endpoints ∧ endpointKey ep = key := by
  rw [findEndpoint] at h
  have hmem := lookup_mem _ _ _ h
  rw [List.mem_reverse] at hmem
  obtain ⟨e, he, heq⟩ := List.mem_map.mp hmem
  have h1 : endpointKey e = key := congrArg Prod.fst heq
  have h2 : e = ep := congrArg Prod.snd heq
  constructor
  · rw [← h2]; exact he
  · rw [← h2, h1]

theorem validateSteps_sound (metadata : ApiMetadata) :
    ∀ (steps : List Json) (out : List PlanStep), validateSteps metadata steps = .ok out →
      out.length = steps.length ∧
      ∀ step ∈ out, ∃ ep ∈ metadata.endpoints, endpointKey ep = step.endpoint ∧
        ∀ p ∈ ep.parameters, p.required = true → hasKeyJson step.params p.name = true := by
  intro steps
  induction steps with
  | nil =>
    intro out h
    rw [validateSteps] at h
    simp only [Except.ok.injEq] at h
    subst h
    exact ⟨rfl, by simp⟩
  | cons step rest ih =>
    intro out h
    rw [validateSteps] at h
    cases hes : stepEndpointString step with
    | none => simp only [hes] at h; cases h
    | some e =>
      cases hps : stepParamsObject step with
      | none => simp only [hes, hps] at h; cases h
      | some ps =>
        cases hfe : findEndpoint metadata e with
        | none => simp only [hes, hps, hfe] at h; cases h
        | some endpoint =>
          simp only [hes, hps, hfe] at h
          by_cases hall : ((endpoint.parameters.filter (fun p => p.required)).all
              (fun p => hasKeyJson ps p.name)) = true
          · rw [if_pos hall] at h
            cases hrest : validateSteps metadata rest with
            | error err => rw [hrest] at h; cases h
            | ok out' =>
              rw [hrest] at h
              simp only [Except.map, Except.ok.injEq] at h
              subst h
              obtain ⟨hlen, hsound⟩ := ih out' hrest
              refine ⟨by simp [hlen], ?_⟩
              intro st hst
              rcases List.mem_cons.mp hst with hfirst | hlater
              · subst hfirst
                obtain ⟨hmem, hkey⟩ := findEndpoint_sound metadata e endpoint hfe
                refine ⟨endpoint, hmem, hkey, ?_⟩
                intro p hp hreq
                have hpf : p ∈ endpoint.parameters.filter (fun p => p.required) := by
                  rw [List.mem_filter]
                  simp [hp, hreq]
                exact List.all_eq_true.mp hall p hpf
              · exact hsound st hlater
          · rw [if_neg hall] at h
            cases h

theorem createFallbackPlan_sound (metadata : ApiMetadata) (plan : ExecutionPlan)
    (h : createFallbackPlan metadata = .ok plan) :
    plan.steps ≠ [] ∧
    ∀ step ∈ plan.steps, ∃ ep ∈ metadata.endpoints, endpointKey ep = step.endpoint ∧
      ∀ p ∈ ep.parameters, p.required = true → hasKeyJson step.params p.name = true := by
  rw [createFallbackPlan] at h
  have noreq : ∀ (ep : EndpointMeta),
      (ep.parameters.filter (fun p => p.required)).length = 0 →
      ∀ p ∈ ep.parameters, p.required = true → hasKeyJson (Json.obj []) p.name = true := by
    intro ep hlen p hp hreq
    exfalso
    have hpf : p ∈ ep.parameters.filter (fun p => p.required) := by
      rw [List.mem_filter]
      simp [hp, hreq]
    rw [List.length_eq_zero.mp hlen] at hpf
    cases hpf
  cases hget : metadata.endpoints.filter (fun ep =>
      ep.method = "GET" && !(ep.path.data.contains '{') &&
        (ep.parameters.filter (fun p => p.required)).length = 0) with
  | cons endpoint tl =>
    simp only [hget, Except.ok.injEq] at h
    subst h
    have hself : endpoint ∈ metadata.endpoints.filter (fun ep =>
        ep.method = "GET" && !(ep.path.data.contains '{') &&
          (ep.parameters.filter (fun p => p.required)).length = 0) := by
      rw [hget]
      exact List.mem_cons_self endpoint tl
    have hmem : endpoint ∈ metadata.endpoints := List.mem_of_mem_filter hself
    have hcond := List.of_mem_filter hself
    simp only [Bool.and_eq_true, decide_eq_true_eq] at hcond
    refine ⟨by simp, ?_⟩
    intro st hst
    rw [List.mem_singleton.mp hst]
    exact ⟨endpoint, hmem, rfl, noreq endpoint hcond.2⟩
  | nil =>
    simp only [hget] at h
    cases hsimple : metadata.endpoints.filter (fun ep =>
        (ep.parameters.filter (fun p => p.required)).length = 0) with
    | nil => simp only [hsimple] at h; cases h
    | cons endpoint tl =>
      simp only [hsimple, Except.ok.injEq] at h
      subst h
      have hself : endpoint ∈ metadata.endpoints.filter (fun ep =>
          (ep.parameters.filter (fun p => p.required)).length = 0) := by
        rw [hsimple]
        exact List.mem_cons_self endpoint tl
      have hmem : endpoint ∈ metadata.endpoints := List.mem_of_mem_filter hself
      have hcond := List.of_mem_filter hself
      simp only [decide_eq_true_eq] at hcond
      refine ⟨by simp, ?_⟩
      intro st hst
      rw [List.mem_singleton.mp hst]
      exact ⟨endpoint, hmem, rfl, noreq endpoint hcond⟩

/-- **C3 (amended).**  Every plan returned by the planner's validation has a
non-empty steps array (an empty LLM plan is replaced by the fallback plan
where possible, not rejected), every step's endpoint string matches a known
endpoint of the project, and every required parameter of that endpoint is
present in the step's params.  **No check on `$.steps[i]` references is
performed**: forward and self references pass validation unexamined (see the
counterexample). -/
theorem c3_validate_plan_guarantees (metadata : ApiMetadata) (planJson : Json)
    (plan : ExecutionPlan) (h : validatePlan planJson metadata = .ok plan) :
    plan.steps ≠ [] ∧
    ∀ step ∈ plan.steps, ∃ ep ∈ metadata.endpoints, endpointKey ep = step.endpoint ∧
      ∀ p ∈ ep.parameters, p.required = true → hasKeyJson step.params p.name = true := by
  cases planJson with
  | obj fields =>
    rw [validatePlan] at h
    cases hsteps : fields.lookup "steps" with
    | none => simp only [hsteps] at h; cases h
    | some v =>
      cases v with
      | arr steps =>
        simp only [hsteps] at h
        by_cases hemp : steps.isEmpty = true
        · rw [if_pos hemp] at h
          exact createFallbackPlan_sound metadata plan h
        · rw [Bool.not_eq_true] at hemp
          rw [hemp] at h
          simp only [Bool.false_eq_true, if_false] at h
          cases hvs : validateSteps metadata steps with
          | error err => rw [hvs] at h; cases h
          | ok out =>
            rw [hvs] at h
            simp only [Except.map, Except.ok.injEq] at h
            subst h
            obtain ⟨hlen, hsound⟩ := validateSteps_sound metadata steps out hvs
            constructor
            · intro hnil
              have hout : out = [] := hnil
              rw [hout] at hlen
              rw [List.isEmpty_eq_false] at hemp
              exact hemp (List.length_eq_zero.mp hlen.symm)
            · exact hsound
      | null => simp only [hsteps] at h; cases h
      | bool b => simp only [hsteps] at h; cases h
      | num q => simp only [hsteps] at h; cases h
      | str s => simp only [hsteps] at h; cases h
      | obj o => simp only [hsteps] at h; cases h
  | null => simp [validatePlan] at h
  | bool b => simp [validatePlan] at h
  | num q => simp [validatePlan] at h
  | str s => simp [validatePlan] at h
  | arr a => simp [validatePlan] at h

/-- Modelled from the spec: the `$.steps[i]` reference indices occurring in a
step's parameter values (the check the claim says `validatePlan` performs; the
code contains no such check). -/
def stepRefIndices (params : Json) : List ℕ :=
  match params with
  | .obj fields => fields.filterMap (fun kv =>
      match kv.2 with
      | .str s =>
        match parseJSONPath s with
        | some (.key "steps" :: .idx i :: _) => some i
        | _ => Option.none
      | _ => Option.none)
  | _ => []

/-- Modelled from the spec: a plan is forward-reference free when every
`$.steps[i]` reference in step `j`'s parameters satisfies `i < j`. -/
def forwardRefFree (plan : ExecutionPlan) : Bool :=
  plan.steps.enum.all (fun js =>
    (stepRefIndices js.2.params).all (fun i => decide (i < js.1)))

/-- The metadata of the C3 counterexample: one parameterless endpoint. -/
def c3Metadata : ApiMetadata :=
  { endpoints := [{ id := 1, path := "/users", method := "GET", summary := "list users" }] }

/-- The C3 counterexample plan JSON: its only step references `$.steps[5]`, a
forward (and out-of-range) reference. -/
def c3PlanJson : Json :=
  .obj [("steps", .arr [.obj [("endpoint", .str "GET /users"),
    ("params", .obj [("userId", .str "$.steps[5].response.id")])]])]

/-- The plan `validatePlan` returns for `c3PlanJson`. -/
def c3Plan : ExecutionPlan :=
  { steps := [{ endpoint := "GET /users",
                params := .obj [("userId", .str "$.steps[5].response.id")] }] }

/-- **C3, counterexample.**  A plan whose first (index 0) step references
`$.steps[5]` — a forward reference — passes `validatePlan` unchanged, so the
claimed fourth check (`i < stepIndex`, violators rejected) does not exist. -/
theorem c3_no_forward_ref_check_counterexample :
    validatePlan c3PlanJson c3Metadata = .ok c3Plan ∧ forwardRefFree c3Plan = false :=
  ⟨rfl, rfl⟩

/-- Witness for C3's amended theorem at a concrete input. -/
theorem c3_validate_plan_guarantees_witness :
    c3Plan.steps ≠ [] :=
  (c3_validate_plan_guarantees c3Metadata c3PlanJson c3Plan rfl).1

/-! ## C4 -/

/-- **C4 (code bug).**  `updateMetadataFromError` applies the deltas to the
database only and never invalidates the planner's metadata cache —
`PlannerService.clearCache` has no call site — so whenever the project's
metadata is cached, the restarted pipeline's `loadApiMetadata` serves the
pre-update copy, whatever deltas were applied. -/
theorem c4_stale_metadata_on_retry (st : SelfHealState) (projectId : ℕ)
    (metadataUpdates : MetadataUpdates) (m : ApiMetadata)
    (h : st.metadataCache.lookup projectId = some m) :
    (updateMetadataFromError st projectId metadataUpdates).metadataCache = st.metadataCache ∧
    retriedMetadata st projectId metadataUpdates = m := by
  constructor
  · rfl
  · rw [retriedMetadata, loadApiMetadata]
    simp only [updateMetadataFromError]
    rw [h]

/-- The pre-update database of the C4 witness: `POST /pet` has no declared
parameter. -/
def c4Db : Db :=
  { endpoints := [{ id := 1, projectId := 1, method := "POST", path := "/pet" }] }

/-- The C4 witness state after the first (failed) pass: the metadata of
project 1 sits in the planner cache. -/
def c4State : SelfHealState :=
  { db := c4Db, metadataCache := [(1, metadataOfDb c4Db 1)] }

/-- The healer's `photoUrls` delta of the C4 witness. -/
def c4MissingParam : MissingParam where
  endpointPath := "/pet"
  method := "POST"
  parameterName := "photoUrls"
  parameterType := "array"
  isRequired := true
  location := "body"

/-- The healer's delta set of the C4 witness: add `photoUrls` as a required
body parameter of `POST /pet`. -/
def c4Updates : MetadataUpdates :=
  { missingParameters := [c4MissingParam] }

/-- Witness for C4's theorem, also exhibiting the divergence: the retried pass
plans against the cached pre-update metadata even though the database now
carries the new parameter. -/
theorem c4_stale_metadata_on_retry_witness :
    retriedMetadata c4State 1 c4Updates = metadataOfDb c4Db 1 ∧
    metadataOfDb (updateMetadataFromError c4State 1 c4Updates).db 1 ≠ metadataOfDb c4Db 1 :=
  ⟨(c4_stale_metadata_on_retry c4State 1 c4Updates (metadataOfDb c4Db 1) rfl).2,
   by decide⟩

/-! ## C6 -/

theorem c6_retry_stopped (planner : ℕ → Except String ExecutionPlan)
    (executor : ℕ → ExecutionResult) (analyzer : ℕ → ErrorAnalysis) (r : ℕ) (hr : 2 ≤ r) :
    (processQueryWithRetry planner executor analyzer r).plannerCalls = 1 ∧
    (processQueryWithRetry planner executor analyzer r).pipelinePasses = 1 := by
  rw [processQueryWithRetry]
  have hnot : ¬ r < 2 := by omega
  cases planner r with
  | error e => simp [hnot]
  | ok p => by_cases hsucc : (executor r).success <;> simp [hnot, hsucc]

theorem c6_calls_bound (planner : ℕ → Except String ExecutionPlan)
    (executor : ℕ → ExecutionResult) (analyzer : ℕ → ErrorAnalysis) :
    ∀ (d r : ℕ), 2 - r ≤ d →
      (processQueryWithRetry planner executor analyzer r).plannerCalls ≤ d + 1 ∧
      (processQueryWithRetry planner executor analyzer r).pipelinePasses ≤ d + 1 := by
  intro d
  induction d with
  | zero =>
    intro r hr
    obtain ⟨h1, h2⟩ := c6_retry_stopped planner executor analyzer r (by omega)
    omega
  | succ d ih =>
    intro r hr
    by_cases hlt : r < 2
    · obtain ⟨ih1, ih2⟩ := ih (r + 1) (by omega)
      rw [processQueryWithRetry]
      cases planner r with
      | error e =>
        simp only [hlt, dite_true]
        by_cases happ : ((analyzer r).shouldRetry && jsTruthy (analyzer r).correctedQuery) = true
        · rw [if_pos happ]
          constructor <;> simp <;> omega
        · rw [if_neg happ]
          constructor <;> simp
      | ok p =>
        by_cases hsucc : (executor r).success
        · simp [hsucc]
        · simp only [hsucc, Bool.false_eq_true, if_false, hlt, dite_true]
          by_cases happ : ((analyzer r).shouldRetry && jsTruthy (analyzer r).correctedQuery) = true
          · rw [if_pos happ]
            constructor <;> simp <;> omega
          · rw [if_neg happ]
            constructor <;> simp
    · obtain ⟨h1, h2⟩ := c6_retry_stopped planner executor analyzer r (by omega)
      omega

theorem c6_no_retry_without_approval (planner : ℕ → Except String ExecutionPlan)
    (executor : ℕ → ExecutionResult) (analyzer : ℕ → ErrorAnalysis) (r : ℕ)
    (h : ((analyzer r).shouldRetry && jsTruthy (analyzer r).correctedQuery) = false) :
    (processQueryWithRetry planner executor analyzer r).pipelinePasses = 1 := by
  rw [processQueryWithRetry]
  cases planner r with
  | error e => by_cases hlt : r < 2 <;> simp [hlt, h]
  | ok p =>
    by_cases hsucc : (executor r).success <;> by_cases hlt : r < 2 <;> simp [hlt, hsucc, h]

/-- **C6 (confirmed).**  A single request performs at most 3 planner
invocations and at most 3 full pipeline passes (initial attempt plus at most 2
retries, `maxRetries = 2`), and more than one pass happens only when the
analyzer of the first attempt returned `shouldRetry` together with a (truthy)
corrected query. -/
theorem c6_retry_budget (planner : ℕ → Except String ExecutionPlan)
    (executor : ℕ → ExecutionResult) (analyzer : ℕ → ErrorAnalysis) :
    (processQueryWithRetry planner executor analyzer 0).plannerCalls ≤ 3 ∧
    (processQueryWithRetry planner executor analyzer 0).pipelinePasses ≤ 3 ∧
    (1 < (processQueryWithRetry planner executor analyzer 0).pipelinePasses →
      (analyzer 0).shouldRetry = true ∧ jsTruthy (analyzer 0).correctedQuery = true) := by
  obtain ⟨h1, h2⟩ := c6_calls_bound planner executor analyzer 2 0 (by omega)
  refine ⟨by omega, by omega, ?_⟩
  intro hgt
  by_contra hnot
  have hfalse : ((analyzer 0).shouldRetry && jsTruthy (analyzer 0).correctedQuery) = false := by
    rcases Bool.eq_false_or_eq_true
        ((analyzer 0).shouldRetry && jsTruthy (analyzer 0).correctedQuery) with hb | hb
    · exact absurd (by simpa using hb) hnot
    · exact hb
  rw [c6_no_retry_without_approval planner executor analyzer 0 hfalse] at hgt
  omega

/-- C6 witness oracle: the planner always returns an (empty) plan. -/
def c6Planner : ℕ → Except String ExecutionPlan := fun _ => .ok { steps := [] }

/-- C6 witness oracle: execution always fails. -/
def c6Executor : ℕ → ExecutionResult := fun _ => { success := false, steps := [] }

/-- C6 witness oracle: the analyzer always approves a retry. -/
def c6Analyzer : ℕ → ErrorAnalysis :=
  fun _ => { shouldRetry := true, correctedQuery := some "use status=available" }

/-- Witness for C6's theorem: with an always-approving analyzer and an
always-failing executor the run performs more than one pass, and the theorem's
conclusions hold at this concrete input. -/
theorem c6_retry_budget_witness :
    (processQueryWithRetry c6Planner c6Executor c6Analyzer 0).plannerCalls ≤ 3 ∧
    (c6Analyzer 0).shouldRetry = true ∧ jsTruthy (c6Analyzer 0).correctedQuery = true := by
  have hp : (processQueryWithRetry c6Planner c6Executor c6Analyzer 0).pipelinePasses = 3 := by
    rw [processQueryWithRetry, processQueryWithRetry, processQueryWithRetry]
    simp [c6Planner, c6Executor, c6Analyzer, jsTruthy]
  exact ⟨(c6_retry_budget c6Planner c6Executor c6Analyzer).1,
    (c6_retry_budget c6Planner c6Executor c6Analyzer).2.2 (by rw [hp]; omega)⟩

/-! ## C5 -/

theorem executePlanLoop_judge_congr (http : ℕ → Except HttpFailure (ℕ × Json))
    (judge judge' : ℕ → Option String) (userMessage : Option String) (totalSteps : ℕ)
    (hj : ∀ k, k < totalSteps - 1 → judge' k = judge k) :
    ∀ (remaining : List PlanStep) (i : ℕ) (acc : List StepResult),
      executePlanLoop http judge' userMessage totalSteps remaining i acc =
      executePlanLoop http judge userMessage totalSteps remaining i acc := by
  intro remaining
  induction remaining with
  | nil => intro i acc; rfl
  | cons step rest ih =>
    intro i acc
    simp only [executePlanLoop]
    cases http i with
    | error e => rfl
    | ok result =>
      by_cases hc : (jsTruthy userMessage && decide (i < totalSteps - 1)) = true
      · have hi : i < totalSteps - 1 := by
          simp only [Bool.and_eq_true, decide_eq_true_eq] at hc
          exact hc.2
        rw [hj i hi]
        simp only [hc, if_true]
        split
        · rfl
        · exact ih (i + 1) _
      · rw [Bool.not_eq_true] at hc
        simp only [hc, Bool.false_eq_true, if_false]
        have hne : (Option.none : Option Bool) = some true ↔ False := by simp
        simp only [hne, if_false]
        exact ih (i + 1) _

/-- The successful-step record the loop pushes (a proof-side abbreviation,
definitionally equal to the literal in `executePlanLoop`). -/
def okStep (j : ℕ) (ep : String) (r : ℕ × Json) (sat : Option Bool) : StepResult :=
  { stepIndex := j, endpoint := ep, success := true, statusCode := some r.1,
    response := some r.2, satisfiesUserRequest := sat }

theorem executePlanLoop_early (http http' : ℕ → Except HttpFailure (ℕ × Json))
    (judge : ℕ → Option String) (userMessage : Option String) (totalSteps i : ℕ)
    (hmsg : jsTruthy userMessage = true)
    (hyes : checkIfResponseSatisfiesRequest (judge i) = true)
    (hiN : i + 1 < totalSteps) :
    ∀ (remaining : List PlanStep) (j : ℕ) (acc : List StepResult),
      j ≤ i → i < j + remaining.length →
      (∀ k, j ≤ k → k ≤ i → ∃ r, http k = .ok r) →
      (∀ k, j ≤ k → k < i → checkIfResponseSatisfiesRequest (judge k) = false) →
      (∀ k, j ≤ k → k ≤ i → http' k = http k) →
      (executePlanLoop http judge userMessage totalSteps remaining j acc).success = true ∧
      (executePlanLoop http judge userMessage totalSteps remaining j acc).earlyTermination = true ∧
      (executePlanLoop http judge userMessage totalSteps remaining j acc).terminationReason =
        some (terminationMessage (i + 1) totalSteps) ∧
      (executePlanLoop http judge userMessage totalSteps remaining j acc).steps.length =
        acc.length + (i + 1 - j) ∧
      executePlanLoop http' judge userMessage totalSteps remaining j acc =
        executePlanLoop http judge userMessage totalSteps remaining j acc := by
  intro remaining
  induction remaining with
  | nil =>
    intro j acc hj hlen
    simp only [List.length_nil, Nat.add_zero] at hlen
    omega
  | cons step rest ih =>
    intro j acc hj hlen hok hbefore hagree
    obtain ⟨r, hr⟩ := hok j le_rfl hj
    have hr' : http' j = http j := hagree j le_rfl hj
    have hjN : j < totalSteps - 1 := by omega
    have hcond : (jsTruthy userMessage && decide (j < totalSteps - 1)) = true := by
      rw [hmsg]
      simp [hjN]
    simp only [executePlanLoop, hr', hr, hcond, if_true]
    by_cases hji : j = i
    · subst hji
      simp only [hyes, Option.some.injEq, if_true]
      refine ⟨by trivial, by trivial, by trivial, ?_, by trivial⟩
      simp only [List.length_append, List.length_cons, List.length_nil]
      omega
    · have hjlt : j < i := lt_of_le_of_ne hj hji
      have hfalse : checkIfResponseSatisfiesRequest (judge j) = false :=
        hbefore j le_rfl hjlt
      simp only [hfalse, Option.some.injEq, Bool.false_eq_true, if_false]
      have hres := ih (j + 1) (acc ++ [okStep j step.endpoint r (some false)])
        (by omega)
        (by simp only [List.length_cons] at hlen; omega)
        (fun k hk1 hk2 => hok k (by omega) hk2)
        (fun k hk1 hk2 => hbefore k (by omega) hk2)
        (fun k hk1 hk2 => hagree k (by omega) hk2)
      obtain ⟨s1, s2, s3, s4, s5⟩ := hres
      refine ⟨s1, s2, s3, ?_, s5⟩
      simp only [okStep] at s4
      rw [s4]
      simp only [List.length_append, List.length_cons, List.length_nil]
      omega

/-- **C5 (confirmed).**  If the judge answers YES after step `i` of a plan
with more than `i+1` steps (all steps up to `i` succeeded, the judge said NO
before), execution stops immediately: the result is successful with
`earlyTermination = true` and a human-readable reason, exactly `i+1` steps
were executed (strictly less than the plan length), the result does not
depend on the HTTP outcomes of any step after `i` (no further calls), the
judge's replies matter only for non-final steps, and a judge failure (`none`)
counts as NO. -/
theorem c5_early_termination (plan : ExecutionPlan)
    (http : ℕ → Except HttpFailure (ℕ × Json)) (judge : ℕ → Option String)
    (userMessage : Option String) (i : ℕ)
    (hmsg : jsTruthy userMessage = true)
    (hok : ∀ k, k ≤ i → ∃ r, http k = .ok r)
    (hbefore : ∀ k, k < i → checkIfResponseSatisfiesRequest (judge k) = false)
    (hyes : checkIfResponseSatisfiesRequest (judge i) = true)
    (hlt : i + 1 < plan.steps.length) :
    (executePlan plan http judge userMessage).success = true ∧
    (executePlan plan http judge userMessage).earlyTermination = true ∧
    (executePlan plan http judge userMessage).terminationReason =
      some (terminationMessage (i + 1) plan.steps.length) ∧
    (executePlan plan http judge userMessage).steps.length = i + 1 ∧
    i + 1 < plan.steps.length ∧
    (∀ http', (∀ k, k ≤ i → http' k = http k) →
      executePlan plan http' judge userMessage = executePlan plan http judge userMessage) ∧
    (∀ judge', (∀ k, k < plan.steps.length - 1 → judge' k = judge k) →
      executePlan plan http judge' userMessage = executePlan plan http judge userMessage) ∧
    checkIfResponseSatisfiesRequest Option.none = false := by
  have hmain := executePlanLoop_early http http judge userMessage plan.steps.length i
    hmsg hyes hlt plan.steps 0 [] (by omega) (by omega)
    (fun k _ hk2 => hok k hk2) (fun k _ hk2 => hbefore k hk2) (fun k _ _ => rfl)
  obtain ⟨s1, s2, s3, s4, _⟩ := hmain
  refine ⟨s1, s2, s3, by rw [executePlan, s4]; simp, hlt, ?_, ?_, rfl⟩
  · intro http' hagree
    have h2 := executePlanLoop_early http http' judge userMessage plan.steps.length i
      hmsg hyes hlt plan.steps 0 [] (by omega) (by omega)
      (fun k _ hk2 => hok k hk2) (fun k _ hk2 => hbefore k hk2)
      (fun k _ hk2 => hagree k hk2)
    exact h2.2.2.2.2
  · intro judge' hj
    exact executePlanLoop_judge_congr http judge judge' userMessage plan.steps.length hj
      plan.steps 0 []

/-- The two-step plan of the C5 witness. -/
def c5Plan : ExecutionPlan :=
  { steps := [{ endpoint := "GET /user/john", params := .obj [] },
              { endpoint := "GET /orders", params := .obj [] }] }

/-- The C5 witness HTTP oracle: every step returns 200 with `{id: 123}`. -/
def c5Http : ℕ → Except HttpFailure (ℕ × Json) :=
  fun _ => .ok (200, .obj [("id", .num 123)])

/-- The C5 witness judge oracle: YES after the first step. -/
def c5Judge : ℕ → Option String := fun _ => some "YES"

/-- Witness for C5's theorem: the two-step plan stops after step 1 with an
early-termination result. -/
theorem c5_early_termination_witness :
    (executePlan c5Plan c5Http c5Judge (some "get user john and his orders")).earlyTermination =
      true ∧
    (executePlan c5Plan c5Http c5Judge (some "get user john and his orders")).steps.length = 1 :=
  ⟨(c5_early_termination c5Plan c5Http c5Judge (some "get user john and his orders") 0
      rfl (fun k _ => ⟨(200, .obj [("id", .num 123)]), rfl⟩)
      (fun k hk => absurd hk (by omega)) rfl (by decide)).2.1,
   (c5_early_termination c5Plan c5Http c5Judge (some "get user john and his orders") 0
      rfl (fun k _ => ⟨(200, .obj [("id", .num 123)]), rfl⟩)
      (fun k hk => absurd hk (by omega)) rfl (by decide)).2.2.2.1⟩
